import Mathlib

/-!
Shallow embedding of the BBA-CLI EPBot wrapper
(`src/wrapper/src/epbot_wrapper.cpp` against `src/wrapper/include/epbot_ffi.h`).

The wrapper maintains an auction tracker (`EPBotHandle`: bid list, cursor,
dealer, started flag) and bridges to an opaque .NET engine.  Engine
interaction is modelled explicitly: property writes to the engine's
convention settings become an `EngineConventions` record, and every other
engine access performed by an entry point is recorded in an `engineCalls`
trace so that "no engine call happens" is expressible.  Machine `int32_t`
arguments are modelled as `Int`; the wrapper's own counters only ever hold
small non-negative values and are modelled as `Nat`.
-/

/-- Error codes from `epbot_ffi.h` (`EPBotError`). -/
def EPBOT_OK : Int := 0
def EPBOT_ERR_NULL_HANDLE : Int := -1
def EPBOT_ERR_INVALID_HAND : Int := -2
def EPBOT_ERR_INVALID_DEALER : Int := -3
def EPBOT_ERR_INVALID_VULNERABILITY : Int := -4
def EPBOT_ERR_INVALID_CONVENTION_FILE : Int := -5
def EPBOT_ERR_BIDDING_FAILED : Int := -6
def EPBOT_ERR_CLR_EXCEPTION : Int := -7
def EPBOT_ERR_OUT_OF_MEMORY : Int := -8
def EPBOT_ERR_AUCTION_COMPLETE : Int := -9

/-- Partnership side for conventions (`EPBotSide`). -/
inductive EPBotSide where
  | ns
  | ew
  deriving DecidableEq, Repr

/-- The wrapper-side state of one instance (`struct EPBotHandle`): the
recorded auction, the cursor, the dealer (numeric value of `EPBotDealer`,
0 = North .. 3 = West), and the started flag. -/
structure EPBotHandle where
  auction : List String
  current_position : Nat
  dealer : Nat
  auction_started : Bool
  deriving DecidableEq, Repr

/-- Engine accesses other than convention-property writes, recorded as an
explicit trace by each modelled entry point. -/
inductive EngineOp where
  | setPosition (p : Nat)
  | getBidRec
  | setCurrentBid (b : String)
  deriving DecidableEq, Repr

/-- `bid == "Pass" || bid == "P"`: the exact pass comparison the wrapper
performs (case-sensitive, the two literal spellings). -/
def isPassTok (b : String) : Bool := b = "Pass" || b = "P"

/-- `GetCurrentBidderPosition`: `(dealer + current_position) % 4`. -/
def GetCurrentBidderPosition (h : EPBotHandle) : Nat :=
  (h.dealer + h.current_position) % 4

/-- `IsAuctionComplete` (epbot_wrapper.cpp lines 126-155), translated
branch for branch: size guard, `has_bid` scan with the two literal
comparisons, the all-pass return, and the three trailing-entry checks via
back indexing. -/
def IsAuctionComplete (auction : List String) : Bool :=
  if auction.length < 4 then false
  else
    let has_bid := auction.any fun bid => !(bid = "Pass") && !(bid = "P")
    if !has_bid then
      decide (4 ≤ auction.length)
    else
      if 3 ≤ auction.length then
        let b1 := auction.getD (auction.length - 1) ""
        let b2 := auction.getD (auction.length - 2) ""
        let b3 := auction.getD (auction.length - 3) ""
        (b1 = "Pass" || b1 = "P") && (b2 = "Pass" || b2 = "P") &&
          (b3 = "Pass" || b3 = "P")
      else false

/-- The spec's termination rule, written from its words: fewer than 4
entries → not complete; no non-pass token anywhere → complete iff length
≥ 4; otherwise complete iff the last three entries are all pass tokens. -/
def specTerminationRule (auction : List String) : Bool :=
  if auction.length < 4 then false
  else if auction.all isPassTok then decide (4 ≤ auction.length)
  else (auction.reverse.take 3).all isPassTok

/-- `epbot_is_auction_complete` on a valid handle and output pointer:
returns `EPBOT_OK` and `IsAuctionComplete` of the recorded auction. -/
def epbot_is_auction_complete (h : EPBotHandle) : Int × Bool :=
  (EPBOT_OK, IsAuctionComplete h.auction)

/-- Outcome of an entry point that may mutate the handle: the error code,
the handle state after the call, the string written into the caller's
buffer (`none` when nothing is written), and the engine accesses made. -/
structure WrapperResult where
  err : Int
  state : EPBotHandle
  written : Option String
  engineCalls : List EngineOp
  deriving DecidableEq, Repr

/-- `epbot_get_next_bid` (lines 287-339) on a non-null handle.  The
caller's buffer is abstracted to its null-ness and its size; the engine's
`bid` property read is abstracted to the string `engineBid` it yields.
The order of the guards and of the state updates mirrors the code: the
invalid-buffer check, then the completion guard, then `Position` is set
and the recommendation fetched, the empty recommendation is normalized to
"Pass", the bid is recorded (push, cursor increment, started flag) and
only then is the buffer size checked against the bid length. -/
def epbot_get_next_bid (h : EPBotHandle) (buffer_null : Bool)
    (buffer_size : Int) (engineBid : String) : WrapperResult :=
  if buffer_null || buffer_size < 1 then
    ⟨EPBOT_ERR_OUT_OF_MEMORY, h, none, []⟩
  else if IsAuctionComplete h.auction then
    ⟨EPBOT_ERR_AUCTION_COMPLETE, h, none, []⟩
  else
    let bidder_position := GetCurrentBidderPosition h
    let bid := if engineBid = "" then "Pass" else engineBid
    let h' : EPBotHandle :=
      ⟨h.auction ++ [bid], h.current_position + 1, h.dealer, true⟩
    if buffer_size ≤ (bid.length : Int) then
      ⟨EPBOT_ERR_OUT_OF_MEMORY, h', none,
        [.setPosition bidder_position, .getBidRec]⟩
    else
      ⟨EPBOT_OK, h', some bid, [.setPosition bidder_position, .getBidRec]⟩

/-- Outcome of `epbot_set_bid`: the call either returns normally with a
code, a new state and its engine accesses, or it reaches
`handle->auction[bid_index]` with an index outside the vector's bounds —
an out-of-bounds write whose behavior is undefined. -/
inductive SetBidOutcome where
  | ret (code : Int) (state : EPBotHandle) (engineCalls : List EngineOp)
  | oobVectorWrite
  deriving DecidableEq, Repr

/-- `epbot_set_bid` (lines 341-371) on a non-null handle; the bid pointer
is `none` when null.  The grow loop `while (size <= bid_index) push("")`
runs only for indices at or beyond the current length; afterwards the
code writes `auction[bid_index]` unconditionally, which for a negative
index is an out-of-bounds vector write.  On the normal path the token is
also forwarded to the engine's current-bid property. -/
def epbot_set_bid (h : EPBotHandle) (bid_index : Int) (bid : Option String) :
    SetBidOutcome :=
  match bid with
  | none => .ret EPBOT_ERR_BIDDING_FAILED h []
  | some b =>
    let grown :=
      h.auction ++ List.replicate (bid_index + 1 - h.auction.length).toNat ""
    if bid_index < 0 then
      .oobVectorWrite
    else
      .ret EPBOT_OK
        ⟨grown.set bid_index.toNat b, h.current_position, h.dealer,
          h.auction_started⟩
        [.setCurrentBid b]

/-- Outcome of `epbot_get_bid` on a non-null handle: the error code, the
string copied into the caller's buffer (`none` when nothing is written),
and whether any element of the recorded sequence was read. -/
structure GetBidResult where
  err : Int
  written : Option String
  readsElement : Bool
  deriving DecidableEq, Repr

/-- `epbot_get_bid` (lines 373-407): invalid-buffer guard, then the range
check `bid_index < 0 || bid_index >= size` before any element access,
then the buffer-size check, then the copy. -/
def epbot_get_bid (h : EPBotHandle) (bid_index : Int) (buffer_null : Bool)
    (buffer_size : Int) : GetBidResult :=
  if buffer_null || buffer_size < 1 then
    ⟨EPBOT_ERR_OUT_OF_MEMORY, none, false⟩
  else if bid_index < 0 || (h.auction.length : Int) ≤ bid_index then
    ⟨EPBOT_ERR_BIDDING_FAILED, none, false⟩
  else
    let bid := h.auction.getD bid_index.toNat ""
    if buffer_size ≤ (bid.length : Int) then
      ⟨EPBOT_ERR_OUT_OF_MEMORY, none, true⟩
    else
      ⟨EPBOT_OK, some bid, true⟩

/-- `epbot_clear_auction` (lines 425-442) on a non-null handle: clears the
auction, zeroes the cursor, resets the started flag; it touches neither
the dealer field nor the engine (no engine access at all, so
engine-side vulnerability, hand and convention settings are untouched). -/
def epbot_clear_auction (h : EPBotHandle) : WrapperResult :=
  ⟨EPBOT_OK, ⟨[], 0, h.dealer, false⟩, none, []⟩

/-- Membership of `" \t"`, the set used by `find_first_not_of` on both the
key and the value and by `find_last_not_of` on the key. -/
def isKeyWS (c : Char) : Bool := c = ' ' || c = '\t'

/-- Membership of `" \t\r\n"`, the set used by `find_last_not_of` on the
value. -/
def isValBackWS (c : Char) : Bool :=
  c = ' ' || c = '\t' || c = '\r' || c = '\n'

/-- C `isspace` in the default locale, the whitespace `std::stoi` skips. -/
def isStoiWS (c : Char) : Bool :=
  c = ' ' || c = '\t' || c = '\n' || c = '\x0b' || c = '\x0c' || c = '\r'

/-- Key trimming in `ParseBbsaFile`: `substr(start, end - start + 1)` with
`start = find_first_not_of(" \t")`, `end = find_last_not_of(" \t")`,
applied only when both positions exist — an all-whitespace (in particular
empty) key is left unchanged. -/
def trimKey (key : List Char) : List Char :=
  if key.all isKeyWS then key
  else ((key.dropWhile isKeyWS).reverse.dropWhile isKeyWS).reverse

/-- Value trimming in `ParseBbsaFile`: front set `" \t"`, back set
`" \t\r\n"`, applied only when both `find` results exist; since the back
set contains the front set, both exist exactly when some character lies
outside the back set. -/
def trimValue (v : List Char) : List Char :=
  if v.all isValBackWS then v
  else ((v.dropWhile isKeyWS).reverse.dropWhile isValBackWS).reverse

/-- `std::stoi` with base 10, as the parser uses it inside `try`: skip
leading C whitespace, an optional sign, then at least one decimal digit
(`none` when there is no digit — `invalid_argument`); trailing non-digit
characters are ignored; values outside the `int` range give `none`
(`out_of_range`).  Both exceptions are caught and skip the line. -/
def stoi? (s : List Char) : Option Int :=
  let afterWS := s.dropWhile isStoiWS
  let sign : Int := if afterWS.head? = some '-' then -1 else 1
  let afterSign :=
    if afterWS.head? = some '-' || afterWS.head? = some '+' then
      afterWS.drop 1
    else afterWS
  let digits := afterSign.takeWhile Char.isDigit
  if digits.isEmpty then none
  else
    let mag : Int := digits.foldl (fun a c => a * 10 + (c.toNat - '0'.toNat : Nat)) 0
    let v := sign * mag
    if v < -(2 ^ 31) || 2 ^ 31 ≤ v then none else some v

/-- `conventions[key] = value` on the `unordered_map`: overwrite the
existing entry for the key, or add a new one.  The map is modelled as an
association list in first-insertion order. -/
def mapInsert (m : List (String × Int)) (k : String) (v : Int) :
    List (String × Int) :=
  if m.any fun p => p.1 = k then
    m.map fun p => if p.1 = k then (k, v) else p
  else m ++ [(k, v)]

/-- The `while (getline...)` loop of `ParseBbsaFile` (lines 74-113),
branch for branch: skip empty lines and lines starting `#`/`;` (checked
before the CR strip), strip one trailing `'\r'`, require a `'='`, split
at the first `'='`, trim key and value, `stoi` the value, and store the
entry; lines failing any step are skipped. -/
def processLines : List String → List (String × Int) → List (String × Int)
  | [], m => m
  | line :: rest, m =>
    let cs := line.toList
    if cs.isEmpty || cs.head? = some '#' || cs.head? = some ';' then
      processLines rest m
    else
      let cs2 := if cs.getLast? = some '\r' then cs.dropLast else cs
      if cs2.contains '=' then
        let key := trimKey (cs2.takeWhile fun c => !(c = '='))
        let value_str := trimValue ((cs2.dropWhile fun c => !(c = '=')).drop 1)
        match stoi? value_str with
        | none => processLines rest m
        | some v => processLines rest (mapInsert m (String.mk key) v)
      else
        processLines rest m

/-- `ParseBbsaFile` (lines 66-116): the file is abstracted to `none` when
it cannot be opened and to its list of lines otherwise; an unopenable
file yields the empty mapping, like in the code. -/
def ParseBbsaFile (file : Option (List String)) : List (String × Int) :=
  match file with
  | none => []
  | some lines => processLines lines []

/-- The engine's convention properties that `epbot_set_convention`
writes (the fixed mapping table of lines 535-570). -/
structure EngineConventions where
  Bergen : Int
  Stayman : Int
  Blackwood_0314 : Int
  Blackwood_1430 : Int
  Jacoby_2NT : Int
  Cappelletti : Int
  Drury : Int
  Lebensohl : Int
  Michaels_Cuebid : Int
  Splinter : Int
  Texas_Transfer : Int
  Unusual_2NT : Int
  deriving DecidableEq, Repr

/-- All-zero engine convention settings, used as a sample starting state. -/
def E0 : EngineConventions := ⟨0, 0, 0, 0, 0, 0, 0, 0, 0, 0, 0, 0⟩

set_option linter.unusedVariables false

/-- `epbot_set_convention` (lines 509-581) on a non-null handle and
non-null key: the fixed if/else chain mapping known key strings to engine
properties; unknown keys fall through and return `EPBOT_OK` with no
property written.  The `side` parameter appears in the signature exactly
as in the code: the body never reads it. -/
def epbot_set_convention (e : EngineConventions) (key : String)
    (value : Int) (side : EPBotSide) : Int × EngineConventions :=
  if key = "Bergen" || key = "Bergen raises" then
    (EPBOT_OK, { e with Bergen := value })
  else if key = "Stayman" then (EPBOT_OK, { e with Stayman := value })
  else if key = "Blackwood 0314" then
    (EPBOT_OK, { e with Blackwood_0314 := value })
  else if key = "Blackwood 1430" then
    (EPBOT_OK, { e with Blackwood_1430 := value })
  else if key = "Jacoby 2NT" then (EPBOT_OK, { e with Jacoby_2NT := value })
  else if key = "Cappelletti" then (EPBOT_OK, { e with Cappelletti := value })
  else if key = "Drury" then (EPBOT_OK, { e with Drury := value })
  else if key = "Lebensohl" then (EPBOT_OK, { e with Lebensohl := value })
  else if key = "Michaels Cuebid" then
    (EPBOT_OK, { e with Michaels_Cuebid := value })
  else if key = "Splinter" then (EPBOT_OK, { e with Splinter := value })
  else if key = "Texas Transfer" then
    (EPBOT_OK, { e with Texas_Transfer := value })
  else if key = "Unusual 2NT" then (EPBOT_OK, { e with Unusual_2NT := value })
  else (EPBOT_OK, e)

/-- `epbot_load_conventions` (lines 464-507) on a non-null handle and
path: parse the file; an empty mapping (unopenable file, or no valid
entry) returns `EPBOT_ERR_INVALID_CONVENTION_FILE`; otherwise every entry
is applied through `epbot_set_convention` (whose return code the loop
discards) and the call returns `EPBOT_OK`. -/
def epbot_load_conventions (e : EngineConventions)
    (file : Option (List String)) (side : EPBotSide) : Int × EngineConventions :=
  let conventions := ParseBbsaFile file
  if conventions.isEmpty then
    (EPBOT_ERR_INVALID_CONVENTION_FILE, e)
  else
    (EPBOT_OK,
      conventions.foldl
        (fun acc kv => (epbot_set_convention acc kv.1 kv.2 side).2) e)

/-- `lineEntrySpec` packages the per-line rule of the convention-file
reader as amended to match the code: a line is skipped when it is blank,
when its first character is `#` or `;`, when (after stripping one
trailing CR) it has no `=`, or when its trimmed value has no parsable
integer prefix; otherwise it contributes the entry mapping its trimmed
key — left untrimmed, in particular kept empty, when it has no
non-whitespace character — to the `stoi`-parsed value. -/
def lineEntrySpec (line : String) : Option (String × Int) :=
  let cs := line.toList
  if cs.isEmpty || cs.head? = some '#' || cs.head? = some ';' then none
  else
    let cs2 := if cs.getLast? = some '\r' then cs.dropLast else cs
    if cs2.contains '=' then
      let key := trimKey (cs2.takeWhile fun c => !(c = '='))
      let value_str := trimValue ((cs2.dropWhile fun c => !(c = '=')).drop 1)
      match stoi? value_str with
      | none => none
      | some v => some (String.mk key, v)
    else none

/- ============================================================
   Helper lemmas
   ============================================================ -/

/-- Two lists with the same image under a predicate agree on `all`. -/
theorem all_eq_of_map_eq {α : Type} (p : α → Bool) :
    ∀ (xs ys : List α), xs.map p = ys.map p → xs.all p = ys.all p := by
  intro xs
  induction xs with
  | nil =>
    intro ys h
    cases ys with
    | nil => rfl
    | cons y ys => simp at h
  | cons x xs ih =>
    intro ys h
    cases ys with
    | nil => simp at h
    | cons y ys =>
      simp only [List.map_cons, List.cons.injEq] at h
      simp only [List.all_cons, h.1, ih ys h.2]

/-- Back-of-list indexing via the reversed list. -/
theorem getD_rev (a : List String) (i : Nat) (hi : i < a.length) :
    a.getD (a.length - 1 - i) "" = a.reverse.getD i "" := by
  rw [List.getD_eq_getElem?_getD, List.getD_eq_getElem?_getD]
  have h1 : a.length - 1 - i < a.length := by omega
  have h2 : i < a.reverse.length := by simpa using hi
  rw [List.getElem?_eq_getElem h1, List.getElem?_eq_getElem h2]
  simp [List.getElem_reverse]

/-- `take 3` of a list of length at least 3, elementwise. -/
theorem take3_all (r : List String) (h : 3 ≤ r.length) :
    (r.take 3).all isPassTok =
      (isPassTok (r.getD 0 "") && isPassTok (r.getD 1 "") &&
        isPassTok (r.getD 2 "")) := by
  rcases r with _ | ⟨x, _ | ⟨y, _ | ⟨z, t⟩⟩⟩
  · simp at h
  · simp at h
  · simp at h
  · simp [List.take_succ_cons, List.all_cons, Bool.and_assoc]

/-- `IsAuctionComplete` in closed form: length at least 4 and the three
trailing entries all pass tokens. -/
theorem isAuctionComplete_eq (a : List String) :
    IsAuctionComplete a =
      (decide (4 ≤ a.length) && (a.reverse.take 3).all isPassTok) := by
  unfold IsAuctionComplete
  by_cases h4 : a.length < 4
  · have : ¬ (4 ≤ a.length) := by omega
    simp [h4, this]
  · have h4' : 4 ≤ a.length := by omega
    have h3 : 3 ≤ a.length := by omega
    have h3r : 3 ≤ a.reverse.length := by simpa using h3
    have htail :
        ((a.getD (a.length - 1) "" = "Pass" || a.getD (a.length - 1) "" = "P") &&
          (a.getD (a.length - 2) "" = "Pass" || a.getD (a.length - 2) "" = "P") &&
          (a.getD (a.length - 3) "" = "Pass" || a.getD (a.length - 3) "" = "P")) =
          (a.reverse.take 3).all isPassTok := by
      rw [take3_all a.reverse h3r]
      have e0 := getD_rev a 0 (by omega)
      have e1 := getD_rev a 1 (by omega)
      have e2 := getD_rev a 2 (by omega)
      have n0 : a.length - 1 - 0 = a.length - 1 := by omega
      have n1 : a.length - 1 - 1 = a.length - 2 := by omega
      have n2 : a.length - 1 - 2 = a.length - 3 := by omega
      rw [n0] at e0; rw [n1] at e1; rw [n2] at e2
      rw [← e0, ← e1, ← e2]
      simp [isPassTok]
    by_cases hb : (a.any fun bid => !(bid = "Pass") && !(bid = "P")) = true
    · simp only [if_neg h4, hb, Bool.not_true, Bool.false_eq_true, if_false,
        if_pos h3]
      rw [htail]
      have : decide (4 ≤ a.length) = true := by simpa using h4'
      rw [this, Bool.true_and]
    · have hb' : (a.any fun bid => !(bid = "Pass") && !(bid = "P")) = false := by
        simpa using hb
      have hall : a.all isPassTok = true := by
        rw [List.all_eq_true]
        intro x hx
        have := (List.any_eq_false.mp hb') x hx
        simp only [isPassTok, Bool.or_eq_true, decide_eq_true_eq]
        by_contra hcon
        push_neg at hcon
        apply this
        simp [hcon.1, hcon.2]
      have htake : (a.reverse.take 3).all isPassTok = true := by
        rw [List.all_eq_true]
        intro x hx
        exact (List.all_eq_true.mp hall) x
          (List.mem_reverse.mp (List.mem_of_mem_take hx))
      simp only [if_neg h4, hb', Bool.not_false, if_true]
      rw [htake]
      simp

/-- `specTerminationRule` in the same closed form. -/
theorem specTerminationRule_eq (a : List String) :
    specTerminationRule a =
      (decide (4 ≤ a.length) && (a.reverse.take 3).all isPassTok) := by
  unfold specTerminationRule
  by_cases h4 : a.length < 4
  · have : ¬ (4 ≤ a.length) := by omega
    simp [h4, this]
  · have h4' : decide (4 ≤ a.length) = true := by
      simp; omega
    by_cases hall : a.all isPassTok = true
    · have htake : (a.reverse.take 3).all isPassTok = true := by
        rw [List.all_eq_true]
        intro x hx
        exact (List.all_eq_true.mp hall) x
          (List.mem_reverse.mp (List.mem_of_mem_take hx))
      simp [h4, hall, h4', htake]
    · have hall' : a.all isPassTok = false := by simpa using hall
      simp [h4, hall', h4']

/- ============================================================
   Claim theorems
   ============================================================ -/

/-- Claim C1: `IsAuctionComplete` (used both by
`epbot_is_auction_complete` and as the guard of `epbot_get_next_bid`) is
exactly the spec's termination rule: fewer than 4 entries → not
complete; no non-pass token anywhere → complete iff length ≥ 4;
otherwise complete iff the last three entries are all pass tokens,
regardless of what precedes them or of total length. -/
theorem c1_termination_rule :
    (∀ a : List String, IsAuctionComplete a = specTerminationRule a) ∧
    (∀ h : EPBotHandle,
      epbot_is_auction_complete h = (EPBOT_OK, specTerminationRule h.auction)) := by
  have key : ∀ a : List String, IsAuctionComplete a = specTerminationRule a := by
    intro a
    rw [isAuctionComplete_eq, specTerminationRule_eq]
  exact ⟨key, fun h => by rw [epbot_is_auction_complete, key h.auction]⟩

/-- Claim C2, counterexample: pass detection is case-sensitive —
replacing the final `"Pass"` of a passed-out auction by the case variant
`"PASS"` flips `IsAuctionComplete` from `true` to `false`, so the claim
that case variants are recognized as passes fails on the code. -/
theorem c2_counterexample :
    IsAuctionComplete ["Pass", "Pass", "Pass", "Pass"] = true ∧
    IsAuctionComplete ["Pass", "Pass", "Pass", "PASS"] = false := by
  constructor <;> rfl

/-- Claim C2 as amended: a token is recognized as a pass exactly when it
is the literal `"Pass"` or `"P"` (case-sensitive); `IsAuctionComplete`
depends only on which entries are such pass tokens, so interchanging the
two recognized spellings never changes the result, while other case
variants are treated as non-pass tokens. -/
theorem c2_pass_status_determines (l₁ l₂ : List String)
    (h : l₁.map isPassTok = l₂.map isPassTok) :
    IsAuctionComplete l₁ = IsAuctionComplete l₂ := by
  rw [isAuctionComplete_eq, isAuctionComplete_eq]
  have hlen : l₁.length = l₂.length := by
    have := congrArg List.length h
    simpa using this
  have hmap : (l₁.reverse.take 3).map isPassTok =
      (l₂.reverse.take 3).map isPassTok := by
    rw [List.map_take, List.map_reverse, h, ← List.map_reverse, ← List.map_take]
  have htail := all_eq_of_map_eq isPassTok _ _ hmap
  rw [hlen, htail]

/-- Witness for the amended C2: replacing every `"Pass"` by `"P"` in a
completed auction preserves completeness. -/
theorem c2_witness :
    (["1H", "Pass", "Pass", "Pass"].map isPassTok =
      ["1H", "P", "P", "P"].map isPassTok) ∧
    IsAuctionComplete ["1H", "Pass", "Pass", "Pass"] =
      IsAuctionComplete ["1H", "P", "P", "P"] :=
  ⟨by decide, c2_pass_status_determines _ _ (by decide)⟩

/-- Claim C3: on a valid buffer, when the recorded sequence already
satisfies the termination rule, `epbot_get_next_bid` returns
`EPBOT_ERR_AUCTION_COMPLETE`, leaves the handle (auction, cursor, dealer,
started flag) unchanged, writes nothing, and performs no engine call. -/
theorem c3_get_next_bid_complete (h : EPBotHandle) (buffer_size : Int)
    (engineBid : String) (hbs : 1 ≤ buffer_size)
    (hc : IsAuctionComplete h.auction = true) :
    epbot_get_next_bid h false buffer_size engineBid =
      ⟨EPBOT_ERR_AUCTION_COMPLETE, h, none, []⟩ := by
  unfold epbot_get_next_bid
  have h1 : ¬ (buffer_size < 1) := by omega
  simp [h1, hc]

/-- Witness for C3 at a passed-out auction with an 8-byte buffer. -/
theorem c3_witness :
    (1 : Int) ≤ 8 ∧
    epbot_get_next_bid ⟨["Pass", "Pass", "Pass", "Pass"], 4, 0, true⟩
        false 8 "1C" =
      ⟨EPBOT_ERR_AUCTION_COMPLETE,
        ⟨["Pass", "Pass", "Pass", "Pass"], 4, 0, true⟩, none, []⟩ :=
  ⟨by norm_num,
    c3_get_next_bid_complete ⟨["Pass", "Pass", "Pass", "Pass"], 4, 0, true⟩
      8 "1C" (by norm_num) (by rfl)⟩

/-- Claim C9: `epbot_clear_auction` returns `EPBOT_OK`, empties the bid
sequence, resets the cursor to 0 and the started flag to `false`, keeps
the dealer field, and performs no engine access at all — so engine-side
vulnerability, hand and convention settings are untouched. -/
theorem c9_clear_auction (h : EPBotHandle) :
    (epbot_clear_auction h).err = EPBOT_OK ∧
    (epbot_clear_auction h).state.auction = [] ∧
    (epbot_clear_auction h).state.current_position = 0 ∧
    (epbot_clear_auction h).state.auction_started = false ∧
    (epbot_clear_auction h).state.dealer = h.dealer ∧
    (epbot_clear_auction h).engineCalls = [] :=
  ⟨rfl, rfl, rfl, rfl, rfl, rfl⟩

/-- Claim C10: the `side` argument of `epbot_set_convention` is never
read — for every engine state, key and value the call behaves
identically for `SIDE_NS` and `SIDE_EW`, in return code and in engine
property updates, and `epbot_load_conventions` inherits this. -/
theorem c10_side_unused (e : EngineConventions) (key : String) (value : Int)
    (s₁ s₂ : EPBotSide) :
    epbot_set_convention e key value s₁ = epbot_set_convention e key value s₂ ∧
    ∀ file, epbot_load_conventions e file s₁ = epbot_load_conventions e file s₂ :=
  ⟨rfl, fun _ => rfl⟩

/-- Claim C4, counterexample: when the caller's buffer is too small for
the recommended bid, `epbot_get_next_bid` has already recorded the bid —
on the one-bid auction `["1H"]` with a 2-byte buffer and recommendation
`"Pass"` it returns the undersized-buffer error but the sequence has
grown and the cursor has advanced, so the state is not the prior one. -/
theorem c4_counterexample :
    (epbot_get_next_bid ⟨["1H"], 1, 0, true⟩ false 2 "Pass").err =
      EPBOT_ERR_OUT_OF_MEMORY ∧
    (epbot_get_next_bid ⟨["1H"], 1, 0, true⟩ false 2 "Pass").state.auction ≠
      ["1H"] ∧
    (epbot_get_next_bid ⟨["1H"], 1, 0, true⟩ false 2 "Pass").state.current_position ≠
      1 := by
  refine ⟨rfl, ?_, ?_⟩ <;> decide

/-- Claim C4 as amended: on a valid buffer that is too small for the
recommended bid, `epbot_get_next_bid` returns the undersized-buffer
error code and writes nothing into the buffer (so it never writes past
it), but the bid has already been recorded before the size check: the
sequence gains the (empty-normalized) recommendation, the cursor
advances by one and the started flag is set; the dealer is unchanged. -/
theorem c4_undersized_buffer (h : EPBotHandle) (buffer_size : Int)
    (engineBid : String) (hbs : 1 ≤ buffer_size)
    (hc : IsAuctionComplete h.auction = false)
    (hlen : buffer_size ≤
      ((if engineBid = "" then "Pass" else engineBid).length : Int)) :
    epbot_get_next_bid h false buffer_size engineBid =
      ⟨EPBOT_ERR_OUT_OF_MEMORY,
        ⟨h.auction ++ [if engineBid = "" then "Pass" else engineBid],
          h.current_position + 1, h.dealer, true⟩,
        none,
        [.setPosition (GetCurrentBidderPosition h), .getBidRec]⟩ := by
  unfold epbot_get_next_bid
  have h1 : ¬ (buffer_size < 1) := by omega
  simp [h1, hc, hlen]

/-- Witness for the amended C4: the counterexample input, with the
recorded-but-unreturned `"Pass"` spelled out. -/
theorem c4_witness :
    (1 : Int) ≤ 2 ∧ IsAuctionComplete ["1H"] = false ∧
    epbot_get_next_bid ⟨["1H"], 1, 0, true⟩ false 2 "Pass" =
      ⟨EPBOT_ERR_OUT_OF_MEMORY, ⟨["1H", "Pass"], 2, 0, true⟩, none,
        [.setPosition 1, .getBidRec]⟩ := by
  refine ⟨by norm_num, by rfl, ?_⟩
  have h := c4_undersized_buffer ⟨["1H"], 1, 0, true⟩ 2 "Pass"
    (by norm_num) (by rfl) (by decide)
  exact h.trans (by decide)

/-- Claim C5: `epbot_get_bid` rejects every out-of-range index (negative
or at/beyond the current length) before reading any element, but
`epbot_set_bid` has no negative-index guard at all: the call
`epbot_set_bid(-1, "1H")` on an empty auction reaches
`handle->auction[-1] = "1H"`, an out-of-bounds vector write (undefined
behavior), instead of returning an error with the sequence unchanged. -/
theorem c5_set_bid_negative_oob :
    epbot_set_bid ⟨[], 0, 0, false⟩ (-1) (some "1H") = .oobVectorWrite ∧
    epbot_get_bid ⟨["1H"], 0, 0, false⟩ 5 false 8 =
      ⟨EPBOT_ERR_BIDDING_FAILED, none, false⟩ ∧
    epbot_get_bid ⟨["1H"], 0, 0, false⟩ (-1) false 8 =
      ⟨EPBOT_ERR_BIDDING_FAILED, none, false⟩ := by
  refine ⟨?_, ?_, ?_⟩ <;> decide

/-- Claim C7: `epbot_load_conventions` returns
`EPBOT_ERR_INVALID_CONVENTION_FILE` exactly when the file cannot be
opened or parses to zero valid entries (even on a file that opened), and
when at least one entry exists it returns `EPBOT_OK` after applying each
entry individually through `epbot_set_convention` (whose per-entry
return code is discarded, so unknown keys cannot abort the load). -/
theorem c7_load_conventions (e : EngineConventions)
    (file : Option (List String)) (side : EPBotSide) :
    ((epbot_load_conventions e file side).1 =
        EPBOT_ERR_INVALID_CONVENTION_FILE ↔
      file = none ∨
        ∃ lines, file = some lines ∧ ParseBbsaFile (some lines) = []) ∧
    (ParseBbsaFile file ≠ [] →
      epbot_load_conventions e file side =
        (EPBOT_OK,
          (ParseBbsaFile file).foldl
            (fun acc kv => (epbot_set_convention acc kv.1 kv.2 side).2) e)) := by
  have hshape : ParseBbsaFile file = [] ↔
      (file = none ∨ ∃ lines, file = some lines ∧ ParseBbsaFile (some lines) = []) := by
    cases file with
    | none => simp [ParseBbsaFile]
    | some lines => simp
  constructor
  · rw [← hshape]
    unfold epbot_load_conventions
    by_cases hp : ParseBbsaFile file = []
    · simp [hp]
    · have hp' : (ParseBbsaFile file).isEmpty = false := by
        simpa [List.isEmpty_iff] using hp
      simp [hp', hp]
      decide
  · intro hne
    unfold epbot_load_conventions
    have hp' : (ParseBbsaFile file).isEmpty = false := by
      simpa [List.isEmpty_iff] using hne
    simp [hp']

/-- Witness for C7: a one-line file `Stayman = 1` loads with `EPBOT_OK`
and sets the engine's Stayman property. -/
theorem c7_witness :
    ParseBbsaFile (some ["Stayman = 1"]) ≠ [] ∧
    epbot_load_conventions E0 (some ["Stayman = 1"]) EPBotSide.ns =
      (EPBOT_OK, { E0 with Stayman := 1 }) := by
  refine ⟨by decide, ?_⟩
  have h := (c7_load_conventions E0 (some ["Stayman = 1"]) EPBotSide.ns).2
    (by decide)
  exact h.trans (by decide)

/-- Claim C8: for every non-negative index, `epbot_set_bid` succeeds with
the token written at that index, the sequence grown with empty
placeholder tokens exactly up to the index when it lies at or beyond the
current length (never shrinking: the new length is the max of the old
length and index+1, and every old entry other than the written index is
preserved), while cursor, dealer and started flag are untouched and the
token is forwarded to the engine's current-bid property. -/
theorem c8_set_bid_grows (h : EPBotHandle) (i : Int) (b : String)
    (hi : 0 ≤ i) :
    ∃ a', epbot_set_bid h i (some b) =
        .ret EPBOT_OK ⟨a', h.current_position, h.dealer, h.auction_started⟩
          [.setCurrentBid b] ∧
      a'.length = max h.auction.length (i.toNat + 1) ∧
      a'[i.toNat]? = some b ∧
      (∀ j, j < h.auction.length → j ≠ i.toNat → a'[j]? = h.auction[j]?) ∧
      (∀ j, h.auction.length ≤ j → j < a'.length → j ≠ i.toNat →
        a'[j]? = some "") := by
  refine ⟨(h.auction ++
      List.replicate (i + 1 - (h.auction.length : Int)).toNat "").set i.toNat b,
    ?_, ?_, ?_, ?_, ?_⟩
  · simp only [epbot_set_bid]
    rw [if_neg (by omega)]
  · rw [List.length_set, List.length_append, List.length_replicate]
    omega
  · apply List.getElem?_set_eq_of_lt
    rw [List.length_append, List.length_replicate]
    omega
  · intro j hj hne
    rw [List.getElem?_set_ne (Ne.symm hne), List.getElem?_append, if_pos hj]
  · intro j hj1 hj2 hne
    rw [List.length_set, List.length_append, List.length_replicate] at hj2
    rw [List.getElem?_set_ne (Ne.symm hne),
      List.getElem?_append_right hj1, List.getElem?_replicate,
      if_pos (by omega)]

/-- Witness for C8: the spec's own example — `set_bid(5, "2C")` on an
empty auction gives length 6, five empty placeholders, and `"2C"` at
index 5, with cursor and flags untouched. -/
theorem c8_witness :
    ((0 : Int) ≤ 5 ∧
      ∃ a', epbot_set_bid ⟨[], 0, 0, false⟩ 5 (some "2C") =
          .ret EPBOT_OK ⟨a', 0, 0, false⟩ [.setCurrentBid "2C"] ∧
        a'.length = max ([] : List String).length ((5 : Int).toNat + 1) ∧
        a'[(5 : Int).toNat]? = some "2C" ∧
        (∀ j, j < ([] : List String).length → j ≠ (5 : Int).toNat →
          a'[j]? = ([] : List String)[j]?) ∧
        (∀ j, ([] : List String).length ≤ j → j < a'.length →
          j ≠ (5 : Int).toNat → a'[j]? = some "")) ∧
    epbot_set_bid ⟨[], 0, 0, false⟩ 5 (some "2C") =
      .ret EPBOT_OK ⟨["", "", "", "", "", "2C"], 0, 0, false⟩
        [.setCurrentBid "2C"] :=
  ⟨⟨by norm_num, c8_set_bid_grows ⟨[], 0, 0, false⟩ 5 "2C" (by norm_num)⟩,
    by decide⟩

/-- One iteration of the parser loop, phrased through the per-line rule. -/
theorem processLines_cons (line : String) (rest : List String)
    (m : List (String × Int)) :
    processLines (line :: rest) m =
      processLines rest
        (match lineEntrySpec line with
         | none => m
         | some kv => mapInsert m kv.1 kv.2) := by
  simp only [processLines, lineEntrySpec]
  split
  · rfl
  · split <;> split <;>
      first
        | rfl
        | (generalize stoi? _ = s; cases s <;> rfl)

/-- Claim C6, counterexample: the parser does not skip lines whose key is
empty after trimming — the line `=1abc` (empty key, and a value that is
only an integer prefix) produces the entry `("", 1)` instead of being
skipped, so the file does not parse to the empty mapping the claim
requires. -/
theorem c6_counterexample :
    ParseBbsaFile (some ["=1abc"]) = [("", 1)] ∧
    ([("", 1)] : List (String × Int)) ≠ [] := by
  exact ⟨by decide, by decide⟩

/-- Claim C6 as amended: the parser processes its lines exactly by the
per-line rule `lineEntrySpec` — blank lines, comment lines (`#`/`;`),
lines without `=` and lines whose trimmed value has no parsable integer
prefix are skipped, while every other line (including one whose key is
empty or all-whitespace after trimming, which is kept untrimmed rather
than skipped) adds an entry mapping the trimmed key to the
`stoi`-style-parsed value, later lines overwriting earlier entries of
the same key; the spec's example file parses to exactly `Stayman = 1`,
and the empty-key line `=1abc` is kept as `("", 1)`. -/
theorem c6_parse_rules :
    (∀ lines, ParseBbsaFile (some lines) =
      lines.foldl
        (fun m line =>
          match lineEntrySpec line with
          | none => m
          | some kv => mapInsert m kv.1 kv.2) []) ∧
    ParseBbsaFile (some ["# comment", "", "Stayman = 1", "garbage_no_equals",
      "Bad=notanumber"]) = [("Stayman", 1)] ∧
    lineEntrySpec "=1abc" = some ("", 1) := by
  refine ⟨?_, by decide, by decide⟩
  intro lines
  show processLines lines [] = _
  generalize ([] : List (String × Int)) = m
  induction lines generalizing m with
  | nil => rfl
  | cons line rest ih =>
    rw [List.foldl_cons, ← ih, processLines_cons]
